import Mathlib

/-!
# Verification of the evidence-pipeline core

Shallow embedding of the four core components of the agentic-RAG answer
engine (chunker, router, fusion engine, answer synthesizer) and proofs of
the specification's testable properties against them.

Conventions of the embedding:
* Python `str` is modelled as `List Char` (`Str` below); Python slice /
  `rfind` clamping semantics (including negative indices) are modelled
  exactly by `pyClamp` / `pySlice` / `pyRfind`.
* Python `float` arithmetic is modelled as exact rational arithmetic (`ℚ`);
  the numeric constants 1.2, 1.0, 0.6, 0.5, 1.3 are the corresponding
  rationals.
* Python `dict.get` of an optional field is modelled by `Option`; Python
  truthiness of a value `v or d` is modelled by testing for the falsy
  values (`none`, empty string, `0`).
* The unbounded `while` loop of `DocumentChunker.chunk_text` is modelled
  with explicit fuel, returning `none` on fuel exhaustion; `some chunks`
  models a run of the loop that actually terminates.
-/

/-- Python strings, modelled as lists of characters. -/
abbrev Str := List Char

/-! ## Python string primitives -/

/-- Python `str.strip()`: drop whitespace from both ends. -/
def pyStrip (s : Str) : Str :=
  ((s.dropWhile Char.isWhitespace).reverse.dropWhile Char.isWhitespace).reverse

/-- Helper for `pySplitWs`: `acc` is the current (reversed) word. -/
def pySplitWsAux : Str → Str → List Str
  | [], acc => if acc = [] then [] else [acc.reverse]
  | c :: rest, acc =>
    if c.isWhitespace then
      if acc = [] then pySplitWsAux rest [] else acc.reverse :: pySplitWsAux rest []
    else pySplitWsAux rest (c :: acc)

/-- Python `str.split()` (no separator): maximal runs of non-whitespace. -/
def pySplitWs (s : Str) : List Str := pySplitWsAux s []

/-- Clamp a Python slice index (possibly negative) into `[0, n]`. -/
def pyClamp (n : Nat) (i : Int) : Nat :=
  if i < 0 then ((n : Int) + i).toNat else min i.toNat n

/-- Python `t[a:b]` with full slice-clamping semantics. -/
def pySlice (t : Str) (a b : Int) : Str :=
  (t.take (pyClamp t.length b)).drop (pyClamp t.length a)

/-- Index of the last occurrence of `c` in a list, if any. -/
def lastIdxOf (c : Char) : Str → Option Nat
  | [] => none
  | x :: xs =>
    match lastIdxOf c xs with
    | some k => some (k + 1)
    | none => if x = c then some 0 else none

/-- Python `t.rfind(c, a, b)`: absolute index of the last occurrence of the
character `c` in the slice `t[a:b]`, or `-1`. -/
def pyRfind (t : Str) (c : Char) (a b : Int) : Int :=
  let i := pyClamp t.length a
  let j := pyClamp t.length b
  match lastIdxOf c ((t.take j).drop i) with
  | some k => ((i + k : Nat) : Int)
  | none => -1

/-- Python `str(n)` for a natural number, as a character list. -/
def natStr (n : Nat) : Str := Nat.toDigits 10 n

/-- Python `text.split("\n\n")`: split on each occurrence of a double
newline, leftmost first, non-overlapping, keeping empty pieces. -/
def splitDoubleNewline : Str → Str → List Str
  | '\n' :: '\n' :: rest, acc => acc.reverse :: splitDoubleNewline rest []
  | c :: rest, acc => splitDoubleNewline rest (c :: acc)
  | [], acc => [acc.reverse]

/-! ## Chunker (`src/ingestion/chunking.py`) -/

/-- The `metadata` dict attached to a `TextChunk`; strategy-specific keys
are optional. -/
structure ChunkMeta where
  document_id : Str
  source : Str
  chunk_index : Nat
  start_position : Option Int := none
  end_position : Option Int := none
  word_count : Option Nat := none
deriving DecidableEq, Repr

/-- `TextChunk` dataclass. -/
structure TextChunk where
  content : Str
  metadata : ChunkMeta
  chunk_id : Str
  source : Str
deriving DecidableEq, Repr

/-- The error raised by invalid chunking parameters
(`ValueError("chunk_overlap must be less than chunk_size")`, the
spec's `ConfigurationError`). -/
inductive ChunkError where
  | configuration
deriving DecidableEq, Repr

instance {ε α : Type} [DecidableEq ε] [DecidableEq α] : DecidableEq (Except ε α) :=
  fun a b =>
    match a, b with
    | .error e, .error f =>
      if h : e = f then isTrue (congrArg Except.error h)
      else isFalse (fun hh => h (Except.error.inj hh))
    | .error _, .ok _ => isFalse (fun hh => Except.noConfusion hh)
    | .ok _, .error _ => isFalse (fun hh => Except.noConfusion hh)
    | .ok x, .ok y =>
      if h : x = y then isTrue (congrArg Except.ok h)
      else isFalse (fun hh => h (Except.ok.inj hh))

/-- The end position chosen for the window starting at `start` in one
iteration of `DocumentChunker.chunk_text`: `min(start + chunk_size,
len(text))`, shrunk to just after the last sentence boundary (`.` or
newline) strictly after `start` when the window does not reach the end of
the text. -/
def chunkEnd (text : Str) (chunk_size : Int) (start : Int) : Int :=
  let end0 : Int := min (start + chunk_size) (text.length : Int)
  if end0 < (text.length : Int) then
    let last_period := pyRfind text '.' start end0
    let last_newline := pyRfind text '\n' start end0
    let last_boundary := max last_period last_newline
    if last_boundary > start then last_boundary + 1 else end0
  else end0

/-- The `while start < len(text)` loop of `DocumentChunker.chunk_text`,
with explicit fuel. State: `start` (an arbitrary integer, as in Python),
`chunk_counter`, and the accumulated `chunks` list. Returns `none` if the
fuel runs out before the loop condition fails. -/
def chunkTextLoop (text : Str) (chunk_size chunk_overlap : Int)
    (document_id source : Str) :
    Nat → Int → Nat → List TextChunk → Option (List TextChunk)
  | 0, _, _, _ => none
  | fuel + 1, start, chunk_counter, chunks =>
    if start < (text.length : Int) then
      let e : Int := chunkEnd text chunk_size start
      let chunk_content := pyStrip (pySlice text start e)
      if chunk_content = [] then
        chunkTextLoop text chunk_size chunk_overlap document_id source
          fuel (e - chunk_overlap) chunk_counter chunks
      else
        let chunk : TextChunk :=
          { content := chunk_content
            metadata :=
              { document_id := document_id
                source := source
                chunk_index := chunk_counter
                start_position := some start
                end_position := some e }
            chunk_id := document_id ++ "_chunk_".toList ++ natStr chunk_counter
            source := source }
        chunkTextLoop text chunk_size chunk_overlap document_id source
          fuel (e - chunk_overlap) (chunk_counter + 1) (chunks ++ [chunk])
    else some chunks

/-- `DocumentChunker.chunk_text`: validates the parameters, then runs the
chunking loop (fuel-instrumented). -/
def chunk_text (fuel : Nat) (text : Str) (chunk_size chunk_overlap : Int)
    (document_id source : Str) : Except ChunkError (Option (List TextChunk)) :=
  if chunk_overlap ≥ chunk_size then .error .configuration
  else .ok (chunkTextLoop text chunk_size chunk_overlap document_id source fuel 0 0 [])

/-- One iteration of the `for idx, para in enumerate(paragraphs)` loop of
`chunk_by_sections`: `None` when the trimmed paragraph is empty. -/
def sectionChunk (document_id source : Str) (p : Nat × Str) : Option TextChunk :=
  let para := pyStrip p.2
  if para = [] then none
  else some
    { content := para
      metadata :=
        { document_id := document_id
          source := source
          chunk_index := p.1 }
      chunk_id := document_id ++ "_section_".toList ++ natStr p.1
      source := source }

/-- `DocumentChunker.chunk_by_sections`: split on blank lines; each
non-empty trimmed paragraph becomes a chunk whose `chunk_index` is its
position in the original paragraph list. -/
def chunk_by_sections (text : Str) (document_id source : Str) : List TextChunk :=
  (splitDoubleNewline text []).enum.filterMap (sectionChunk document_id source)

/-- Build one token-strategy chunk. -/
def tokenChunk (document_id source : Str) (content : Str) (idx wc : Nat) : TextChunk :=
  { content := content
    metadata :=
      { document_id := document_id
        source := source
        chunk_index := idx
        word_count := some wc }
    chunk_id := document_id ++ "_token_chunk_".toList ++ natStr idx
    source := source }

/-- The emission test `len(chunk_words) >= max_tokens / 1.3` of
`chunk_by_tokens`, with the positive denominator cleared so that the test
is kernel-decidable; `tokenThreshold_iff` below proves it equal to the
rational-arithmetic reading. -/
def tokenThreshold (max_tokens : Int) (n : Nat) : Prop :=
  10 * max_tokens ≤ 13 * (n : Int)

instance (max_tokens : Int) (n : Nat) : Decidable (tokenThreshold max_tokens n) :=
  inferInstanceAs (Decidable (_ ≤ _))

/-- `tokenThreshold` is exactly `n ≥ max_tokens / 1.3` over exact
rational arithmetic. -/
theorem tokenThreshold_iff (max_tokens : Int) (n : Nat) :
    tokenThreshold max_tokens n ↔ (n : ℚ) ≥ (max_tokens : ℚ) / (13 / 10 : ℚ) := by
  unfold tokenThreshold
  rw [ge_iff_le, div_le_iff₀ (by norm_num)]
  constructor
  · intro h
    have h2 : ((10 * max_tokens : Int) : ℚ) ≤ ((13 * (n : Int) : Int) : ℚ) := by
      exact_mod_cast h
    push_cast at h2
    linarith
  · intro h
    have h2 : ((10 * max_tokens : Int) : ℚ) ≤ ((13 * (n : Int) : Int) : ℚ) := by
      push_cast
      linarith
    exact_mod_cast h2

/-- The `for word in words` loop of `DocumentChunker.chunk_by_tokens`.
State: accumulated `chunk_words`, `chunk_counter`, emitted chunks. -/
def chunkTokensLoop (max_tokens : Int) (document_id source : Str) :
    List Str → List Str → Nat → List TextChunk → List Str × Nat × List TextChunk
  | [], chunk_words, chunk_counter, chunks => (chunk_words, chunk_counter, chunks)
  | w :: ws, chunk_words, chunk_counter, chunks =>
    let cw := chunk_words ++ [w]
    if tokenThreshold max_tokens cw.length then
      let content := pyStrip (List.intercalate [' '] cw)
      if content = [] then
        chunkTokensLoop max_tokens document_id source ws [] chunk_counter chunks
      else
        chunkTokensLoop max_tokens document_id source ws [] (chunk_counter + 1)
          (chunks ++ [tokenChunk document_id source content chunk_counter cw.length])
    else
      chunkTokensLoop max_tokens document_id source ws cw chunk_counter chunks

/-- `DocumentChunker.chunk_by_tokens`: greedy word accumulation with a
`max_tokens / 1.3` threshold and a final flush of the partial accumulator. -/
def chunk_by_tokens (text : Str) (max_tokens : Int) (document_id source : Str) :
    List TextChunk :=
  let r := chunkTokensLoop max_tokens document_id source (pySplitWs text) [] 0 []
  if r.1 = [] then r.2.2
  else
    r.2.2 ++ [tokenChunk document_id source
      (pyStrip (List.intercalate [' '] r.1)) r.2.1 r.1.length]

/-! ## Router (`src/agents/router_agent.py`) -/

/-- Substring test (Python `re.search` of a literal pattern against the
lowered query). -/
def isSubList : Str → Str → Bool
  | needle, [] => needle.isEmpty
  | needle, c :: rest => needle.isPrefixOf (c :: rest) || isSubList needle rest

/-- `re.search(r"202\d", q)`: the substring `"202"` followed by a digit. -/
def matches202d : Str → Bool
  | c1 :: c2 :: c3 :: c4 :: rest =>
    ((c1 == '2') && (c2 == '0') && (c3 == '2') && c4.isDigit) ||
      matches202d (c2 :: c3 :: c4 :: rest)
  | _ => false

/-- `RouterAgent._looks_like_web_query`: any `WEB_KEYWORDS` pattern matches
the lowered query (`stat(e|istics)` matches as `state` or `statistics`). -/
def looks_like_web_query (query : Str) : Bool :=
  let q := query.map Char.toLower
  isSubList "latest".toList q || isSubList "recent".toList q || matches202d q ||
  isSubList "research".toList q || isSubList "report".toList q ||
  isSubList "news".toList q || isSubList "trends".toList q ||
  isSubList "state".toList q || isSubList "statistics".toList q

/-- `RouterAgent._looks_like_internal_only`: any `INTERNAL_KEYWORDS`
pattern matches the lowered query. -/
def looks_like_internal_only (query : Str) : Bool :=
  let q := query.map Char.toLower
  isSubList "our".toList q || isSubList "internal".toList q ||
  isSubList "company".toList q || isSubList "client".toList q ||
  isSubList "confidential".toList q

/-- The decision dict returned by `RouterAgent.decide`. -/
structure RouterDecision where
  use_documents : Bool
  use_web : Bool
  reason : Str
deriving DecidableEq, Repr

/-- `RouterAgent.decide`; `has_uploaded_docs` models
`metadata.get("has_uploaded_docs", False)`. -/
def router_decide (query : Str) (has_uploaded_docs : Option Bool) : RouterDecision :=
  let has_docs := has_uploaded_docs.getD false
  if has_docs && looks_like_internal_only query then
    ⟨true, false, "Internal scope detected".toList⟩
  else
    let web_needed := looks_like_web_query query
    if has_docs && web_needed then
      ⟨true, true, "Combined: internal + recent/external".toList⟩
    else if has_docs && !web_needed then
      ⟨true, false, "Documents sufficient".toList⟩
    else if !has_docs && web_needed then
      ⟨false, true, "No docs, web search required".toList⟩
    else
      ⟨has_docs, true, "Default to both when uncertain".toList⟩

/-! ## Fusion engine (`src/agents/fusion_agent.py`) -/

/-- `FusionAgent._normalize_snippet`:
`' '.join(text.strip().split())[:500]`. -/
def normalize_snippet (text : Str) : Str :=
  (List.intercalate [' '] (pySplitWs (pyStrip text))).take 500

/-- A document hit as produced by `DocRAGAgent` (§6 of the spec:
`{content, score?, source, metadata?}`); nested `metadata` keys are
flattened into optional fields. -/
structure DocHit where
  content : Option Str := none
  text : Option Str := none
  score : Option ℚ := none
  source : Option Str := none
  metadata_source : Option Str := none
  metadata_original_path : Option Str := none
deriving DecidableEq, Repr

/-- A web hit as produced by `WebAgent.search` (§6 of the spec:
`{title?, url?, snippet?, confidence?}`). -/
structure WebHit where
  title : Option Str := none
  url : Option Str := none
  snippet : Option Str := none
  confidence : Option ℚ := none
deriving DecidableEq, Repr

/-- A citation object as built by `FusionAgent._make_citation`. -/
structure Citation where
  claim : Str
  source_type : Str
  source : Option Str
  url : Option Str
  confidence : ℚ
deriving DecidableEq, Repr

/-- `self.source_priority['document']` (the float `1.2`). -/
def source_priority_document : ℚ := 12 / 10

/-- `self.source_priority['internet']` (the float `1.0`). -/
def source_priority_internet : ℚ := 1

/-- `FusionAgent._make_citation`. -/
def make_citation (claim : Str) (source_type : Str) (source : Option Str)
    (url : Option Str) (confidence : ℚ) : Citation :=
  { claim := claim, source_type := source_type, source := source,
    url := url, confidence := confidence }

/-- The dedup key: first 200 characters of the normalized claim. -/
def citKey (c : Citation) : Str := c.claim.take 200

/-- The citation built for one document hit in the first loop of
`FusionAgent.fuse` (`score = d.get('score') or 0.6`: the default applies
when the field is absent, `None`, or zero). -/
def mkDocCitation (d : DocHit) : Citation :=
  let snippet := normalize_snippet (d.content.getD (d.text.getD []))
  let score : ℚ :=
    match d.score with
    | some s => if s = 0 then 6 / 10 else s
    | none => 6 / 10
  make_citation snippet "document".toList
    (some (d.source.getD (d.metadata_source.getD "internal".toList)))
    (match d.metadata_original_path with
     | some p => if p = [] then none else some p
     | none => none)
    (min 1 (score * source_priority_document))

/-- The citation built for one web hit in the second loop of
`FusionAgent.fuse` (`score = w.get('confidence', 0.5)`: the default
applies only when the field is absent; `source` is
`w.get('title') or w.get('url')`). -/
def mkWebCitation (w : WebHit) : Citation :=
  let snippet := normalize_snippet (w.snippet.getD (w.title.getD []))
  let score : ℚ := w.confidence.getD (5 / 10)
  make_citation snippet "internet".toList
    (match w.title with
     | some t => if t = [] then w.url else some t
     | none => w.url)
    w.url
    (min 1 (score * source_priority_internet))

/-- One dedup pass of `FusionAgent.fuse`: skip a citation whose key is in
`seen`, otherwise add its key to `seen` and keep it. Returns the final
`seen` set (as a list) and the kept citations, in order. -/
def dedupCitations : List Citation → List Str → List Str × List Citation
  | [], seen => (seen, [])
  | c :: cs, seen =>
    if citKey c ∈ seen then dedupCitations cs seen
    else
      let r := dedupCitations cs (citKey c :: seen)
      (r.1, c :: r.2)

/-- `sorted(merged, key=lambda x: x['confidence'], reverse=True)`: stable
sort, descending by confidence. -/
def sortByConfDesc (l : List Citation) : List Citation :=
  l.insertionSort (fun a b => b.confidence ≤ a.confidence)

/-- Python `f"{x}"` applied to a possibly-`None` string. -/
def optionStrOrNone (o : Option Str) : Str :=
  match o with
  | some s => s
  | none => "None".toList

/-- `FusionAgent._build_summary_prompt`. -/
def build_summary_prompt (citations : List Citation) : Str :=
  List.intercalate ['\n']
    ("Synthesize the following evidence into a concise, grounded answer with inline citations:".toList ::
      ((citations.take 10).enum.map fun ic =>
        "[".toList ++ natStr (ic.1 + 1) ++ "] (".toList ++ ic.2.source_type ++
          ") ".toList ++ ic.2.claim.take 300 ++ " -- source: ".toList ++
          optionStrOrNone ic.2.source) ++
      ["\nProvide a short answer (3-5 sentences) and list the sources by number.".toList])

/-- The dict returned by `FusionAgent.fuse`. -/
structure FusedEvidence where
  evidence : List Citation
  summary_prompt : Str
deriving DecidableEq, Repr

/-- `FusionAgent.fuse`: build citations for document hits (first) and web
hits (second) sharing one `seen` set, then rank by descending confidence
and build the synthesis prompt. -/
def fuse (doc_results : List DocHit) (web_results : List WebHit) : FusedEvidence :=
  let step1 := dedupCitations (doc_results.map mkDocCitation) []
  let step2 := dedupCitations (web_results.map mkWebCitation) step1.1
  let merged := sortByConfDesc (step1.2 ++ step2.2)
  { evidence := merged, summary_prompt := build_summary_prompt merged }

/-! ## Answer synthesizer (`src/agents/answer_agent.py`) -/

/-- The dict returned by `AnswerAgent.generate_answer`. -/
structure AnswerResult where
  answer : Str
  citations : List Citation
  sources_text : Str
deriving DecidableEq, Repr

/-- `c.get('source') or c.get('url') or 'unknown'`. -/
def citationDisplaySource (c : Citation) : Str :=
  match c.source with
  | some s =>
    if s = [] then
      match c.url with
      | some u => if u = [] then "unknown".toList else u
      | none => "unknown".toList
    else s
  | none =>
    match c.url with
    | some u => if u = [] then "unknown".toList else u
    | none => "unknown".toList

/-- `AnswerAgent._format_citations`: one line `[i] source (sourceType)` per
citation, numbered from 1, joined by newlines. -/
def format_citations (citations : List Citation) : Str :=
  List.intercalate ['\n']
    (citations.enum.map fun ic =>
      "[".toList ++ natStr (ic.1 + 1) ++ "] ".toList ++
        citationDisplaySource ic.2 ++ " (".toList ++ ic.2.source_type ++ ")".toList)

/-- The generation prompt built by `AnswerAgent.generate_answer` from the
first 15 citations. -/
def answerPrompt (citations : List Citation) (user_query : Str) : Str :=
  List.intercalate ['\n']
    ("You are an assistant that must not hallucinate. Answer concisely using only the provided evidence.".toList ::
      ("User question: ".toList ++ user_query) ::
      "Evidence:".toList ::
      (((citations.take 15).enum.map fun ic =>
        "[".toList ++ natStr (ic.1 + 1) ++ "] ".toList ++ ic.2.claim ++
          " (source: ".toList ++ optionStrOrNone ic.2.source ++ ")".toList) ++
      ["\nProduce a short answer (3-6 sentences) and attach inline numeric citations like [1], [2]. Then list the referenced sources and their metadata.".toList]))

/-- The text-generation collaborator (`self.llm.chat`): takes chat
messages (role/content pairs), returns a reply or raises. -/
abbrev ChatFun := List (Str × Str) → Except Unit Str

/-- The `messages` list passed to `llm.chat`. -/
def answerMessages (prompt : Str) : List (Str × Str) :=
  [("system".toList,
    "You are a helpful assistant that must cite sources and avoid adding new facts.".toList),
   ("user".toList, prompt)]

/-- `AnswerAgent.generate_answer`: try the chat collaborator; on any
failure fall back to the space-joined claims of the first 3 citations.
Both paths attach the unchanged citations and the formatted sources. -/
def generate_answer (chat : ChatFun) (fused : FusedEvidence) (user_query : Str) :
    AnswerResult :=
  let citations := fused.evidence
  let prompt := answerPrompt citations user_query
  match chat (answerMessages prompt) with
  | .ok resp =>
    { answer := resp, citations := citations,
      sources_text := format_citations citations }
  | .error _ =>
    { answer := List.intercalate [' '] ((citations.take 3).map fun c => c.claim)
      citations := citations
      sources_text := format_citations citations }

/-- The dedup transformation as the specification words it: the first
citation with a given key is kept, every later citation with an
already-seen key is dropped entirely. -/
def dedupFirstByKey : List Citation → List Citation
  | [] => []
  | c :: cs => c :: dedupFirstByKey (cs.filter fun c2 => !(citKey c2 == citKey c))
termination_by l => l.length
decreasing_by
  simp only [List.length_cons]
  exact Nat.lt_succ_of_le (List.length_filter_le _ _)

/-! ## Chunker lemmas -/

/-- Chunk indices are exactly `0..n-1`, in order. -/
def chunkIdxOk (l : List TextChunk) : Prop :=
  l.map (fun c => c.metadata.chunk_index) = List.range l.length

theorem chunkTextLoop_sound (text : Str) (cs co : Int) (d s : Str) :
    ∀ (fuel : Nat) (start : Int) (counter : Nat) (acc res : List TextChunk),
      acc.map (fun c => c.metadata.chunk_index) = List.range counter →
      (∀ c ∈ acc, c.content ≠ []) →
      chunkTextLoop text cs co d s fuel start counter acc = some res →
      chunkIdxOk res ∧ ∀ c ∈ res, c.content ≠ [] := by
  intro fuel
  induction fuel with
  | zero =>
    intro start counter acc res hmap hne h
    simp [chunkTextLoop] at h
  | succ n ih =>
    intro start counter acc res hmap hne h
    simp only [chunkTextLoop] at h
    split at h
    · split at h
      · exact ih _ _ _ _ hmap hne h
      · refine ih _ _ _ _ ?_ ?_ h
        · simp only [List.map_append, List.map_cons, List.map_nil, hmap]
          simpa using (List.range_succ counter).symm
        · intro c hc
          rcases List.mem_append.mp hc with hc | hc
          · exact hne c hc
          · simp only [List.mem_singleton] at hc
            subst hc
            simpa using by assumption
    · cases h
      have hlen : acc.length = counter := by
        have := congrArg List.length hmap
        simpa using this
      exact ⟨by rw [chunkIdxOk, hmap, hlen], hne⟩

/-- On the five-character text `"hello"` with the default parameters
(`chunk_size = 1024`, `chunk_overlap = 200`), once `start = -195` the loop
reproduces `start = end - chunk_overlap = 5 - 200 = -195` forever: no
amount of fuel makes it terminate. -/
theorem chunkTextLoop_hello_stuck :
    ∀ (fuel : Nat) (counter : Nat) (acc : List TextChunk),
      chunkTextLoop ['h','e','l','l','o'] 1024 200 [] [] fuel (-195) counter acc
        = none := by
  intro fuel
  induction fuel with
  | zero => intro counter acc; rfl
  | succ n ih =>
    intro counter acc
    exact ih (counter + 1) (acc ++
      [{ content := ['h','e','l','l','o']
         metadata := { document_id := [], source := [], chunk_index := counter,
                       start_position := some (-195), end_position := some 5 }
         chunk_id := "_chunk_".toList ++ natStr counter
         source := [] }])

theorem sectionChunk_some {d s : Str} {p : Nat × Str} {c : TextChunk}
    (h : sectionChunk d s p = some c) :
    c.metadata.chunk_index = p.1 ∧ c.content ≠ [] := by
  simp only [sectionChunk] at h
  split at h
  · cases h
  · cases h
    exact ⟨rfl, by simpa using by assumption⟩

theorem sections_aux (d s : Str) :
    ∀ (l : List Str) (n : Nat),
      List.Pairwise (· < ·)
        (((l.enumFrom n).filterMap (sectionChunk d s)).map
          fun c => c.metadata.chunk_index) ∧
      ∀ c ∈ (l.enumFrom n).filterMap (sectionChunk d s),
        n ≤ c.metadata.chunk_index ∧ c.content ≠ [] := by
  intro l
  induction l with
  | nil => intro n; simp
  | cons x xs ih =>
    intro n
    rw [List.enumFrom_cons, List.filterMap_cons]
    rcases hx : sectionChunk d s (n, x) with _ | c
    · refine ⟨(ih (n + 1)).1, fun c hc => ?_⟩
      have := (ih (n + 1)).2 c hc
      exact ⟨Nat.le_of_succ_le this.1, this.2⟩
    · obtain ⟨hidx, hcontent⟩ := sectionChunk_some hx
      refine ⟨?_, ?_⟩
      · rw [List.map_cons, List.pairwise_cons]
        refine ⟨?_, (ih (n + 1)).1⟩
        intro m hm
        rw [List.mem_map] at hm
        obtain ⟨c2, hc2, rfl⟩ := hm
        have := ((ih (n + 1)).2 c2 hc2).1
        omega
      · intro c2 hc2
        rcases List.mem_cons.mp hc2 with rfl | hc2
        · exact ⟨by omega, hcontent⟩
        · have := (ih (n + 1)).2 c2 hc2
          exact ⟨by omega, this.2⟩

/-- `chunk_by_sections` produces strictly increasing chunk indices and
non-empty contents. -/
theorem chunk_by_sections_sound (text d s : Str) :
    List.Pairwise (· < ·)
      ((chunk_by_sections text d s).map fun c => c.metadata.chunk_index) ∧
    ∀ c ∈ chunk_by_sections text d s, c.content ≠ [] := by
  unfold chunk_by_sections
  rw [List.enum]
  obtain ⟨h1, h2⟩ := sections_aux d s (splitDoubleNewline text []) 0
  exact ⟨h1, fun c hc => (h2 c hc).2⟩

/-- A string that contains a non-whitespace character does not strip to
the empty string. -/
theorem pyStrip_ne_nil {l : Str} {c : Char} (hc : c ∈ l)
    (hws : ¬ c.isWhitespace) : pyStrip l ≠ [] := by
  unfold pyStrip
  intro h
  have h1 : (l.dropWhile Char.isWhitespace).reverse.dropWhile Char.isWhitespace
      = [] := by
    have := congrArg List.reverse h
    simpa using this
  rw [List.dropWhile_eq_nil_iff] at h1
  have h2 : l.takeWhile Char.isWhitespace ++ l.dropWhile Char.isWhitespace = l :=
    List.takeWhile_append_dropWhile _ _
  have hcd : c ∈ l.dropWhile Char.isWhitespace := by
    rw [← h2] at hc
    rcases List.mem_append.mp hc with hc | hc
    · exact absurd (List.mem_takeWhile_imp hc) hws
    · exact hc
  exact hws (h1 c (List.mem_reverse.mpr hcd))

/-- A word: non-empty and whitespace-free. -/
def wordOk (w : Str) : Prop := w ≠ [] ∧ ∀ ch ∈ w, ¬ ch.isWhitespace

theorem pySplitWsAux_wordOk :
    ∀ (s acc : Str), (∀ ch ∈ acc, ¬ ch.isWhitespace) →
      ∀ w ∈ pySplitWsAux s acc, wordOk w := by
  intro s
  induction s with
  | nil =>
    intro acc hacc w hw
    simp only [pySplitWsAux] at hw
    split at hw
    · simp at hw
    · rename_i haccne
      simp only [List.mem_singleton] at hw
      subst hw
      constructor
      · intro hrev
        exact haccne (by simpa using hrev)
      · intro ch hch
        exact hacc ch (List.mem_reverse.mp hch)
  | cons c rest ih =>
    intro acc hacc w hw
    simp only [pySplitWsAux] at hw
    split at hw
    · split at hw
      · exact ih [] (by simp) w hw
      · rename_i haccne
        rcases List.mem_cons.mp hw with rfl | hw
        · constructor
          · intro hrev
            exact haccne (by simpa using hrev)
          · intro ch hch
            exact hacc ch (List.mem_reverse.mp hch)
        · exact ih [] (by simp) w hw
    · rename_i hwsc
      refine ih (c :: acc) ?_ w hw
      intro ch hch
      rcases List.mem_cons.mp hch with rfl | hch
      · exact hwsc
      · exact hacc ch hch

/-- Every word of `pySplitWs` is non-empty and whitespace-free. -/
theorem pySplitWs_wordOk (s : Str) : ∀ w ∈ pySplitWs s, wordOk w :=
  pySplitWsAux_wordOk s [] (by simp)

/-- Joining a non-empty list of words and stripping yields a non-empty
string. -/
theorem stripJoin_ne_nil {cw : List Str} (hne : cw ≠ [])
    (hok : ∀ w ∈ cw, wordOk w) :
    pyStrip (List.intercalate [' '] cw) ≠ [] := by
  obtain ⟨w, rest, rfl⟩ := List.exists_cons_of_ne_nil hne
  obtain ⟨hw, hws⟩ := hok w (List.mem_cons_self w rest)
  obtain ⟨ch, cs, rfl⟩ := List.exists_cons_of_ne_nil hw
  have hch : ch ∈ List.intercalate [' '] ((ch :: cs) :: rest) := by
    unfold List.intercalate
    rcases rest with _ | ⟨r, rs⟩
    · simp
    · simp [List.intersperse]
  exact pyStrip_ne_nil hch (hws ch (List.mem_cons_self ch cs))

theorem chunkTokensLoop_sound (mt : Int) (d s : Str) :
    ∀ (ws : List Str) (cw : List Str) (counter : Nat) (acc : List TextChunk),
      acc.map (fun c => c.metadata.chunk_index) = List.range counter →
      (∀ c ∈ acc, c.content ≠ []) →
      (∀ w ∈ cw, wordOk w) →
      (∀ w ∈ ws, wordOk w) →
      ((chunkTokensLoop mt d s ws cw counter acc).2.2.map
          (fun c => c.metadata.chunk_index)
        = List.range (chunkTokensLoop mt d s ws cw counter acc).2.1) ∧
      (∀ c ∈ (chunkTokensLoop mt d s ws cw counter acc).2.2, c.content ≠ []) ∧
      (∀ w ∈ (chunkTokensLoop mt d s ws cw counter acc).1, wordOk w) := by
  intro ws
  induction ws with
  | nil =>
    intro cw counter acc hmap hne hcw _
    exact ⟨hmap, hne, hcw⟩
  | cons w ws ih =>
    intro cw counter acc hmap hne hcw hws
    have hwok : wordOk w := hws w (List.mem_cons_self w ws)
    have hws' : ∀ v ∈ ws, wordOk v := fun v hv => hws v (List.mem_cons_of_mem w hv)
    have hcw' : ∀ v ∈ cw ++ [w], wordOk v := by
      intro v hv
      rcases List.mem_append.mp hv with hv | hv
      · exact hcw v hv
      · simpa using (List.mem_singleton.mp hv) ▸ hwok
    simp only [chunkTokensLoop]
    split
    · split
      · exact ih [] counter acc hmap hne (by simp) hws'
      · refine ih [] (counter + 1) _ ?_ ?_ (by simp) hws'
        · simp only [List.map_append, List.map_cons, List.map_nil, hmap, tokenChunk]
          simpa using (List.range_succ counter).symm
        · intro c hc
          rcases List.mem_append.mp hc with hc | hc
          · exact hne c hc
          · simp only [List.mem_singleton] at hc
            subst hc
            simpa [tokenChunk] using by assumption
    · exact ih (cw ++ [w]) counter acc hmap hne hcw' hws'

/-- `chunk_by_tokens` produces contiguous indices `0..n-1` and non-empty
contents. -/
theorem chunk_by_tokens_sound (text : Str) (mt : Int) (d s : Str) :
    chunkIdxOk (chunk_by_tokens text mt d s) ∧
    ∀ c ∈ chunk_by_tokens text mt d s, c.content ≠ [] := by
  obtain ⟨hmap, hne, hcw⟩ :=
    chunkTokensLoop_sound mt d s (pySplitWs text) [] 0 [] (by simp) (by simp)
      (by simp) (pySplitWs_wordOk text)
  rcases hr : chunkTokensLoop mt d s (pySplitWs text) [] 0 [] with ⟨cw, counter, chunks⟩
  rw [hr] at hmap hne hcw
  dsimp only at hmap hne hcw
  simp only [chunk_by_tokens, hr]
  have hlen : chunks.length = counter := by
    have := congrArg List.length hmap
    simpa using this
  split
  · exact ⟨by rw [chunkIdxOk, hmap, hlen], hne⟩
  · constructor
    · rw [chunkIdxOk]
      simp only [List.map_append, List.map_cons, List.map_nil, tokenChunk, hmap]
      rw [List.length_append]
      simp only [List.length_cons, List.length_nil]
      rw [hlen]
      simpa using (List.range_succ counter).symm
    · intro c hc
      rcases List.mem_append.mp hc with hc | hc
      · exact hne c hc
      · simp only [List.mem_singleton] at hc
        subst hc
        simp only [tokenChunk]
        exact stripJoin_ne_nil (by assumption) hcw

/-! ## Fusion lemmas -/

theorem dedupCitations_seen_mono (l : List Citation) :
    ∀ seen : List Str, seen ⊆ (dedupCitations l seen).1 := by
  induction l with
  | nil => intro seen; simp [dedupCitations]
  | cons c cs ih =>
    intro seen
    simp only [dedupCitations]
    split
    · exact ih seen
    · exact fun k hk => ih (citKey c :: seen) (List.mem_cons_of_mem _ hk)

theorem dedupCitations_key_mem (l : List Citation) :
    ∀ seen : List Str, ∀ c ∈ l, citKey c ∈ (dedupCitations l seen).1 := by
  induction l with
  | nil => intro seen c hc; simp at hc
  | cons c cs ih =>
    intro seen c2 hc2
    simp only [dedupCitations]
    split
    · rcases List.mem_cons.mp hc2 with rfl | hc2
      · exact dedupCitations_seen_mono cs seen (by assumption)
      · exact ih seen c2 hc2
    · rcases List.mem_cons.mp hc2 with rfl | hc2
      · exact dedupCitations_seen_mono cs (citKey c2 :: seen)
          (List.mem_cons_self _ _)
      · exact ih (citKey c :: seen) c2 hc2

theorem dedupCitations_kept_fresh (l : List Citation) :
    ∀ seen : List Str, ∀ c ∈ (dedupCitations l seen).2, citKey c ∉ seen := by
  induction l with
  | nil => intro seen c hc; simp [dedupCitations] at hc
  | cons c cs ih =>
    intro seen c2 hc2
    simp only [dedupCitations] at hc2
    split at hc2
    · exact ih seen c2 hc2
    · rcases List.mem_cons.mp hc2 with rfl | hc2
      · assumption
      · exact fun hk =>
          ih (citKey c :: seen) c2 hc2 (List.mem_cons_of_mem _ hk)

theorem dedupCitations_mem (l : List Citation) :
    ∀ seen : List Str, ∀ c ∈ (dedupCitations l seen).2, c ∈ l := by
  induction l with
  | nil => intro seen c hc; simp [dedupCitations] at hc
  | cons c cs ih =>
    intro seen c2 hc2
    simp only [dedupCitations] at hc2
    split at hc2
    · exact List.mem_cons_of_mem _ (ih seen c2 hc2)
    · rcases List.mem_cons.mp hc2 with rfl | hc2
      · exact List.mem_cons_self _ _
      · exact List.mem_cons_of_mem _ (ih (citKey c :: seen) c2 hc2)

theorem dedupCitations_pairwise (l : List Citation) :
    ∀ seen : List Str,
      List.Pairwise (fun a b => citKey a ≠ citKey b) (dedupCitations l seen).2 := by
  induction l with
  | nil => intro seen; simp [dedupCitations]
  | cons c cs ih =>
    intro seen
    simp only [dedupCitations]
    split
    · exact ih seen
    · rw [List.pairwise_cons]
      refine ⟨fun b hb => ?_, ih (citKey c :: seen)⟩
      have := dedupCitations_kept_fresh cs (citKey c :: seen) b hb
      intro h
      exact this (h ▸ List.mem_cons_self _ _)

theorem dedupCitations_append (l1 l2 : List Citation) :
    ∀ seen : List Str,
      dedupCitations (l1 ++ l2) seen =
        ((dedupCitations l2 (dedupCitations l1 seen).1).1,
         (dedupCitations l1 seen).2 ++
           (dedupCitations l2 (dedupCitations l1 seen).1).2) := by
  induction l1 with
  | nil => intro seen; simp [dedupCitations]
  | cons c cs ih =>
    intro seen
    simp only [List.cons_append, dedupCitations]
    split
    · exact ih seen
    · simp only [List.append_eq]
      rw [ih (citKey c :: seen)]
      simp

/-- Processing with the `seen` set started at `seen` equals first-seen
dedup of the candidates whose key is not already in `seen`. -/
theorem dedupCitations_eq_dedupFirst :
    ∀ (n : Nat) (l : List Citation), l.length ≤ n → ∀ seen : List Str,
      (dedupCitations l seen).2 =
        dedupFirstByKey (l.filter fun c => !(decide (citKey c ∈ seen))) := by
  intro n
  induction n with
  | zero =>
    intro l hl seen
    rw [Nat.le_zero, List.length_eq_zero] at hl
    subst hl
    simp [dedupCitations, dedupFirstByKey]
  | succ n ih =>
    intro l hl seen
    rcases l with _ | ⟨c, cs⟩
    · simp [dedupCitations, dedupFirstByKey]
    · simp only [dedupCitations, List.filter_cons]
      split
      · rename_i hmem
        rw [ih cs (by simpa using Nat.le_of_succ_le_succ hl) seen]
        simp [hmem]
      · rename_i hmem
        rw [ih cs (by simpa using Nat.le_of_succ_le_succ hl) (citKey c :: seen)]
        have harg :
            ((cs.filter fun c2 => !(decide (citKey c2 ∈ seen))).filter
              fun c2 => !(citKey c2 == citKey c)) =
            cs.filter fun c2 => !(decide (citKey c2 ∈ citKey c :: seen)) := by
          rw [List.filter_filter]
          refine List.filter_congr ?_
          intro x _
          by_cases h1 : citKey x = citKey c <;> by_cases h2 : citKey x ∈ seen <;>
            simp [h1, h2, List.mem_cons]
        simp only [hmem, decide_False, Bool.not_false, if_pos]
        rw [dedupFirstByKey, harg]

theorem sortByConfDesc_perm (l : List Citation) : (sortByConfDesc l).Perm l :=
  List.perm_insertionSort _ l

/-- The evidence list of `fuse`, written as first-seen dedup of the
document candidates followed by the web candidates, then ranked. -/
theorem fuse_evidence_eq (docs : List DocHit) (webs : List WebHit) :
    (fuse docs webs).evidence =
      sortByConfDesc
        (dedupFirstByKey (docs.map mkDocCitation ++ webs.map mkWebCitation)) := by
  simp only [fuse]
  have h := dedupCitations_append (docs.map mkDocCitation) (webs.map mkWebCitation) []
  have h2 := dedupCitations_eq_dedupFirst
    (docs.map mkDocCitation ++ webs.map mkWebCitation).length
    (docs.map mkDocCitation ++ webs.map mkWebCitation) le_rfl []
  have h3 : ((docs.map mkDocCitation ++ webs.map mkWebCitation).filter
      fun c => !(decide (citKey c ∈ ([] : List Str)))) =
      docs.map mkDocCitation ++ webs.map mkWebCitation := by
    refine (List.filter_congr ?_).trans (List.filter_true _)
    intro x _
    simp
  rw [h3] at h2
  rw [← h2, h]

/-- Every fused citation comes from exactly one input hit, carrying that
hit's citation verbatim and the matching source type. -/
theorem fuse_evidence_provenance (docs : List DocHit) (webs : List WebHit) :
    ∀ c ∈ (fuse docs webs).evidence,
      (c.source_type = "document".toList ∧ ∃ d ∈ docs, c = mkDocCitation d) ∨
      (c.source_type = "internet".toList ∧ ∃ w ∈ webs, c = mkWebCitation w) := by
  intro c hc
  simp only [fuse] at hc
  rw [(sortByConfDesc_perm _).mem_iff, List.mem_append] at hc
  rcases hc with hc | hc
  · left
    have := dedupCitations_mem _ _ c hc
    rw [List.mem_map] at this
    obtain ⟨d, hd, rfl⟩ := this
    exact ⟨rfl, d, hd, rfl⟩
  · right
    have := dedupCitations_mem _ _ c hc
    rw [List.mem_map] at this
    obtain ⟨w, hw, rfl⟩ := this
    exact ⟨rfl, w, hw, rfl⟩

theorem mkDocCitation_confidence (d : DocHit) :
    (mkDocCitation d).confidence =
      min 1 ((match d.score with
              | some s => if s = 0 then 6 / 10 else s
              | none => (6 : ℚ) / 10) * source_priority_document) := rfl

theorem mkWebCitation_confidence (w : WebHit) :
    (mkWebCitation w).confidence =
      min 1 (w.confidence.getD (5 / 10) * source_priority_internet) := rfl

theorem mkDocCitation_conf_le_one (d : DocHit) : (mkDocCitation d).confidence ≤ 1 :=
  min_le_left _ _

theorem mkWebCitation_conf_le_one (w : WebHit) : (mkWebCitation w).confidence ≤ 1 :=
  min_le_left _ _

theorem mkDocCitation_conf_nonneg (d : DocHit)
    (h : ∀ q : ℚ, d.score = some q → 0 ≤ q) : 0 ≤ (mkDocCitation d).confidence := by
  rw [mkDocCitation_confidence]
  rcases hd : d.score with _ | q
  · rw [le_min_iff]
    constructor
    · norm_num
    · simp only [source_priority_document]
      norm_num
  · rw [le_min_iff]
    refine ⟨by norm_num, ?_⟩
    simp only [source_priority_document]
    split
    · norm_num
    · have := h q hd
      positivity

theorem mkWebCitation_conf_nonneg (w : WebHit)
    (h : ∀ q : ℚ, w.confidence = some q → 0 ≤ q) : 0 ≤ (mkWebCitation w).confidence := by
  rw [mkWebCitation_confidence]
  rcases hw : w.confidence with _ | q
  · simp only [Option.getD_none, source_priority_internet]
    norm_num
  · simp only [Option.getD_some, source_priority_internet, mul_one]
    rw [le_min_iff]
    exact ⟨by norm_num, h q hw⟩

/-! ## Claims -/

/-- C1: the claim says that for every valid parameter pair
(`chunkOverlap < chunkSize`) the `chunk_text` loop terminates with
`start >= length(text)`. The code does not: whenever `chunk_overlap ≥ 1`
and the text is non-empty, the next start `end - chunk_overlap` stays
strictly below `length(text)` forever. This theorem exhibits the
divergence on `chunk_text("hello")` with the default parameters
`chunk_size = 1024`, `chunk_overlap = 200` (a valid pair): no amount of
fuel makes the loop reach its exit condition. -/
theorem c1_chunk_text_nonterminating :
    ∀ fuel : Nat,
      chunk_text fuel ['h','e','l','l','o'] 1024 200 [] [] = .ok none := by
  intro fuel
  have hloop : chunkTextLoop ['h','e','l','l','o'] 1024 200 [] [] fuel 0 0 []
      = none := by
    cases fuel with
    | zero => rfl
    | succ n =>
      exact chunkTextLoop_hello_stuck n 1
        [{ content := ['h','e','l','l','o']
           metadata := { document_id := [], source := [], chunk_index := 0,
                         start_position := some 0, end_position := some 5 }
           chunk_id := "_chunk_".toList ++ natStr 0
           source := [] }]
  simp only [chunk_text]
  rw [if_neg (by norm_num), hloop]

/-- C2: whenever `chunk_text` returns a chunk list (valid parameters,
loop terminated), the `chunk_index` metadata values are exactly
`0..n-1` in order and every chunk's content is non-empty. -/
theorem c2_chunk_text_indices (fuel : Nat) (text : Str) (cs co : Int)
    (d s : Str) (res : List TextChunk) (hvalid : co < cs)
    (h : chunk_text fuel text cs co d s = .ok (some res)) :
    chunkIdxOk res ∧ ∀ c ∈ res, c.content ≠ [] := by
  simp only [chunk_text] at h
  rw [if_neg (not_le.mpr hvalid)] at h
  exact chunkTextLoop_sound text cs co d s fuel 0 0 [] res (by simp) (by simp)
    (Except.ok.inj h)

/-- Witness for C2 at `chunk_text("ab", chunk_size=1, chunk_overlap=0)`. -/
theorem c2_chunk_text_indices_witness :
    (0 : Int) < 1 ∧
    (chunkIdxOk [
        { content := ['a']
          metadata := { document_id := [], source := [], chunk_index := 0,
                        start_position := some 0, end_position := some 1 }
          chunk_id := "_chunk_0".toList, source := [] },
        { content := ['b']
          metadata := { document_id := [], source := [], chunk_index := 1,
                        start_position := some 1, end_position := some 2 }
          chunk_id := "_chunk_1".toList, source := [] }] ∧
      ∀ c ∈ [
        { content := ['a']
          metadata := { document_id := [], source := [], chunk_index := 0,
                        start_position := some 0, end_position := some 1 }
          chunk_id := "_chunk_0".toList, source := [] },
        ({ content := ['b']
           metadata := { document_id := [], source := [], chunk_index := 1,
                         start_position := some 1, end_position := some 2 }
           chunk_id := "_chunk_1".toList, source := [] } : TextChunk)],
        c.content ≠ []) :=
  ⟨by norm_num,
   c2_chunk_text_indices 3 "ab".toList 1 0 [] [] _ (by norm_num) (by decide)⟩

/-- C10: `chunk_text` fails with the configuration error exactly when
`chunk_overlap >= chunk_size`; the check runs before any chunk is
produced, and for valid parameters the error is never raised. -/
theorem c10_configuration_error (fuel : Nat) (text : Str) (cs co : Int)
    (d s : Str) :
    chunk_text fuel text cs co d s = .error .configuration ↔ co ≥ cs := by
  simp only [chunk_text]
  split
  · rename_i h
    simp only [eq_self_iff_true, true_iff]
    exact h
  · rename_i h
    constructor
    · intro hh
      exact Except.noConfusion hh
    · intro hge
      exact absurd hge h

/-- Witness for C10: `size=100, overlap=100` raises; `size=1, overlap=0`
does not. -/
theorem c10_configuration_error_witness :
    chunk_text 0 [] 100 100 [] [] = .error .configuration ∧
    chunk_text 3 "ab".toList 1 0 [] [] ≠ .error .configuration :=
  ⟨(c10_configuration_error 0 [] 100 100 [] []).mpr (by norm_num),
   fun h => absurd ((c10_configuration_error 3 "ab".toList 1 0 [] []).mp h)
     (by norm_num)⟩

/-- C7 counterexample: `chunk_by_sections` keeps the original paragraph
position as `chunk_index`, so with an empty paragraph in the middle
(`"a\n\n\n\nb"` splits into `["a", "", "b"]`) the emitted indices are
`[0, 2]`, not the contiguous `0..n-1` the claim requires. -/
theorem c7_counterexample :
    ¬ ((chunk_by_sections ['a','\n','\n','\n','\n','b'] [] []).map
        (fun c => c.metadata.chunk_index) =
      List.range (chunk_by_sections ['a','\n','\n','\n','\n','b'] [] []).length) := by
  decide

/-- C7 amended: chunks of one pass have strictly increasing indices and
non-empty content for all three strategies; the indices are contiguous
from 0 for `chunk_text` (on any list it returns) and `chunk_by_tokens`,
while `chunk_by_sections` keeps the original paragraph positions (still
strictly increasing, but with gaps where empty paragraphs are skipped). -/
theorem c7_chunk_invariants :
    (∀ (fuel : Nat) (text : Str) (cs co : Int) (d s : Str)
        (res : List TextChunk), co < cs →
        chunk_text fuel text cs co d s = .ok (some res) →
        chunkIdxOk res ∧ ∀ c ∈ res, c.content ≠ []) ∧
    (∀ text d s : Str,
        List.Pairwise (· < ·)
          ((chunk_by_sections text d s).map fun c => c.metadata.chunk_index) ∧
        ∀ c ∈ chunk_by_sections text d s, c.content ≠ []) ∧
    (∀ (text : Str) (mt : Int) (d s : Str),
        chunkIdxOk (chunk_by_tokens text mt d s) ∧
        ∀ c ∈ chunk_by_tokens text mt d s, c.content ≠ []) := by
  refine ⟨?_, fun t d s => chunk_by_sections_sound t d s,
    fun t mt d s => chunk_by_tokens_sound t mt d s⟩
  intro fuel text cs co d s res hv h
  simp only [chunk_text] at h
  rw [if_neg (not_le.mpr hv)] at h
  exact chunkTextLoop_sound text cs co d s fuel 0 0 [] res (by simp) (by simp)
    (Except.ok.inj h)

/-- Witness for C7 at concrete inputs for each strategy. -/
theorem c7_chunk_invariants_witness :
    (chunkIdxOk [
        { content := ['a']
          metadata := { document_id := [], source := [], chunk_index := 0,
                        start_position := some 0, end_position := some 1 }
          chunk_id := "_chunk_0".toList, source := [] },
        ({ content := ['b']
           metadata := { document_id := [], source := [], chunk_index := 1,
                         start_position := some 1, end_position := some 2 }
           chunk_id := "_chunk_1".toList, source := [] } : TextChunk)] ∧
      ∀ c ∈ [
        { content := ['a']
          metadata := { document_id := [], source := [], chunk_index := 0,
                        start_position := some 0, end_position := some 1 }
          chunk_id := "_chunk_0".toList, source := [] },
        ({ content := ['b']
           metadata := { document_id := [], source := [], chunk_index := 1,
                         start_position := some 1, end_position := some 2 }
           chunk_id := "_chunk_1".toList, source := [] } : TextChunk)],
        c.content ≠ []) ∧
    (List.Pairwise (· < ·)
        ((chunk_by_sections "x".toList [] []).map fun c => c.metadata.chunk_index) ∧
      ∀ c ∈ chunk_by_sections "x".toList [] [], c.content ≠ []) ∧
    (chunkIdxOk (chunk_by_tokens "one two".toList 1 [] []) ∧
      ∀ c ∈ chunk_by_tokens "one two".toList 1 [] [], c.content ≠ []) :=
  ⟨c7_chunk_invariants.1 3 "ab".toList 1 0 [] [] _ (by norm_num) (by decide),
   c7_chunk_invariants.2.1 "x".toList [] [],
   c7_chunk_invariants.2.2 "one two".toList 1 [] []⟩

/-- C3: `fuse` processes all document candidates before all web
candidates and deduplicates on the first 200 characters of the
normalized snippet: the evidence list is exactly the first-seen-per-key
filtering of document citations followed by web citations (so later
duplicates are dropped entirely, never merged); fused keys are pairwise
distinct; and a retained web citation's key never equals any document
candidate's key (a web hit duplicating a document hit is dropped with
the document version retained). -/
theorem c3_fuse_dedup_first_seen (docs : List DocHit) (webs : List WebHit) :
    (fuse docs webs).evidence =
      sortByConfDesc
        (dedupFirstByKey (docs.map mkDocCitation ++ webs.map mkWebCitation)) ∧
    List.Pairwise (fun a b => citKey a ≠ citKey b) (fuse docs webs).evidence ∧
    ∀ c ∈ (fuse docs webs).evidence, c.source_type = "internet".toList →
      ∀ d ∈ docs, citKey c ≠ citKey (mkDocCitation d) := by
  refine ⟨fuse_evidence_eq docs webs, ?_, ?_⟩
  · have happ := dedupCitations_append (docs.map mkDocCitation)
      (webs.map mkWebCitation) []
    have hpair := dedupCitations_pairwise
      (docs.map mkDocCitation ++ webs.map mkWebCitation) []
    rw [happ] at hpair
    simp only at hpair
    simp only [fuse]
    exact hpair.perm (sortByConfDesc_perm _).symm fun h => h.symm
  · intro c hc hint d hd
    simp only [fuse] at hc
    rw [(sortByConfDesc_perm _).mem_iff, List.mem_append] at hc
    rcases hc with hc | hc
    · have hmem := dedupCitations_mem _ _ c hc
      rw [List.mem_map] at hmem
      obtain ⟨d0, _, rfl⟩ := hmem
      have hdoc : (mkDocCitation d0).source_type = "document".toList := rfl
      rw [hdoc] at hint
      exact absurd hint (by decide)
    · have hfresh := dedupCitations_kept_fresh _ _ c hc
      have hkey := dedupCitations_key_mem (docs.map mkDocCitation) []
        (mkDocCitation d) (List.mem_map_of_mem _ hd)
      intro heq
      exact hfresh (heq ▸ hkey)

/-- C5 counterexample: confidence is only clamped from above. A document
hit carrying `score = -1` yields confidence `min(1, -1 * 1.2) = -1.2`,
outside `[0, 1]`. -/
theorem c5_counterexample :
    ((fuse [{ score := some (-1) }] []).evidence.map fun c => c.confidence)
        = [-(12 / 10 : ℚ)] ∧
      ¬ (0 ≤ (-(12 / 10 : ℚ))) := by
  constructor
  · simp only [fuse, List.map_cons, List.map_nil, dedupCitations, citKey,
      List.not_mem_nil, if_neg, sortByConfDesc, List.insertionSort,
      List.orderedInsert, List.nil_append]
    simp [mkDocCitation, make_citation, source_priority_document,
      normalize_snippet, pySplitWs, pySplitWsAux, pyStrip]
    norm_num
  · norm_num

/-- C5 amended: every fused confidence is clamped from above by 1; and
whenever all supplied scores are non-negative (as real retrieval scores
are), every fused confidence lies in `[0, 1]`. The code has no lower
clamp, so a negative input score escapes the interval
(see the counterexample). -/
theorem c5_confidence_bounds (docs : List DocHit) (webs : List WebHit) :
    (∀ c ∈ (fuse docs webs).evidence, c.confidence ≤ 1) ∧
    ((∀ d ∈ docs, ∀ q : ℚ, d.score = some q → 0 ≤ q) →
     (∀ w ∈ webs, ∀ q : ℚ, w.confidence = some q → 0 ≤ q) →
     ∀ c ∈ (fuse docs webs).evidence,
       0 ≤ c.confidence ∧ c.confidence ≤ 1) := by
  have hprov := fuse_evidence_provenance docs webs
  constructor
  · intro c hc
    rcases hprov c hc with ⟨_, d, _, rfl⟩ | ⟨_, w, _, rfl⟩
    · exact mkDocCitation_conf_le_one d
    · exact mkWebCitation_conf_le_one w
  · intro hd hw c hc
    rcases hprov c hc with ⟨_, d, hdm, rfl⟩ | ⟨_, w, hwm, rfl⟩
    · exact ⟨mkDocCitation_conf_nonneg d (hd d hdm), mkDocCitation_conf_le_one d⟩
    · exact ⟨mkWebCitation_conf_nonneg w (hw w hwm), mkWebCitation_conf_le_one w⟩

/-- C8 counterexample: the document-score default is applied through
Python truthiness (`d.get('score') or 0.6`), so a *present* score of `0`
is replaced by `0.6`: the resulting confidence is `0.72`, not the
`min(1, 0 * 1.2) = 0` the claim predicts for a present score. -/
theorem c8_counterexample :
    ((fuse [{ score := some 0 }] []).evidence.map fun c => c.confidence)
        = [(18 / 25 : ℚ)] ∧
      (18 / 25 : ℚ) ≠ min 1 (0 * source_priority_document) := by
  constructor
  · simp only [fuse, List.map_cons, List.map_nil, dedupCitations, citKey,
      List.not_mem_nil, if_neg, sortByConfDesc, List.insertionSort,
      List.orderedInsert, List.nil_append]
    simp [mkDocCitation, make_citation, source_priority_document,
      normalize_snippet, pySplitWs, pySplitWsAux, pyStrip]
    norm_num
  · simp only [source_priority_document]
    norm_num

/-- C8 amended: document confidence is `min(1, rawScore * 1.2)` where
`rawScore` is the supplied score when it is present *and non-zero*, and
the default `0.6` when the score is absent or zero (Python truthiness);
web confidence is `min(1, rawScore * 1.0)` with default `0.5` applied
only when the field is absent; and the document priority weight `1.2`
strictly exceeds the web priority weight `1.0`. -/
theorem c8_confidence_formula :
    (∀ d : DocHit, ∀ q : ℚ, d.score = some q → q ≠ 0 →
        (mkDocCitation d).confidence = min 1 (q * source_priority_document)) ∧
    (∀ d : DocHit, d.score = none ∨ d.score = some 0 →
        (mkDocCitation d).confidence
          = min 1 ((6 / 10) * source_priority_document)) ∧
    (∀ w : WebHit, ∀ q : ℚ, w.confidence = some q →
        (mkWebCitation w).confidence = min 1 (q * source_priority_internet)) ∧
    (∀ w : WebHit, w.confidence = none →
        (mkWebCitation w).confidence
          = min 1 ((5 / 10) * source_priority_internet)) ∧
    source_priority_internet < source_priority_document := by
  refine ⟨?_, ?_, ?_, ?_, ?_⟩
  · intro d q hq hne
    rw [mkDocCitation_confidence, hq]
    simp [hne]
  · intro d hd
    rcases hd with hd | hd
    · rw [mkDocCitation_confidence, hd]
    · rw [mkDocCitation_confidence, hd]
      simp
  · intro w q hq
    rw [mkWebCitation_confidence, hq]
    simp
  · intro w hw
    rw [mkWebCitation_confidence, hw]
    simp
  · simp only [source_priority_internet, source_priority_document]
    norm_num

/-- C9 counterexample: the source type recorded for a web hit is the
string `"internet"`, not the `"web"` of the claimed
`enum{document, web}`. -/
theorem c9_counterexample :
    ((fuse [] [{ snippet := some "beta".toList }]).evidence.map
        fun c => c.source_type) = ["internet".toList] ∧
      "internet".toList ≠ "web".toList := by
  constructor
  · simp only [fuse, List.map_cons, List.map_nil, dedupCitations, citKey,
      List.not_mem_nil, if_neg, sortByConfDesc, List.insertionSort,
      List.orderedInsert, List.nil_append]
    simp [mkWebCitation, make_citation]
  · decide

/-- C9 amended: every fused citation's `source_type` is one of the two
literals `"document"` / `"internet"`: document-sourced hits get
`"document"`, web-sourced hits get `"internet"` (the code's name for the
spec's `web`). -/
theorem c9_source_type (docs : List DocHit) (webs : List WebHit) :
    ∀ c ∈ (fuse docs webs).evidence,
      (c.source_type = "document".toList ∧ ∃ d ∈ docs, c = mkDocCitation d) ∨
      (c.source_type = "internet".toList ∧ ∃ w ∈ webs, c = mkWebCitation w) :=
  fuse_evidence_provenance docs webs

/-! ## Router claim -/

theorem router_decide_web_or_docs (q : Str) (hd : Option Bool) :
    (router_decide q hd).use_documents = true ∨
      (router_decide q hd).use_web = true := by
  simp only [router_decide]
  split
  · left; rfl
  · split
    · left; rfl
    · split
      · left; rfl
      · split
        · right; rfl
        · right; rfl

/-- C6 counterexample: the claim says `(useDocuments, useWeb) =
(false, false)` is a reachable outcome; it is not — every branch of
`decide` sets at least one of the two booleans, the final default always
setting `use_web = True`. -/
theorem c6_counterexample :
    ¬ ∃ (q : Str) (hd : Option Bool),
        (router_decide q hd).use_documents = false ∧
        (router_decide q hd).use_web = false := by
  rintro ⟨q, hd, h1, h2⟩
  rcases router_decide_web_or_docs q hd with h | h
  · rw [h1] at h; cases h
  · rw [h2] at h; cases h

/-- C6 amended: exactly three of the four boolean combinations are
reachable — `(T,F)`, `(T,T)` and `(F,T)` each have a witnessing query
and context, while `(F,F)` is never returned (at least one source is
always consulted); and every decision carries a non-empty rationale. -/
theorem c6_router_outcomes :
    router_decide "our report".toList (some true) =
      ⟨true, false, "Internal scope detected".toList⟩ ∧
    router_decide "latest news".toList (some true) =
      ⟨true, true, "Combined: internal + recent/external".toList⟩ ∧
    router_decide "latest news".toList none =
      ⟨false, true, "No docs, web search required".toList⟩ ∧
    (∀ (q : Str) (hd : Option Bool),
        (router_decide q hd).use_documents = true ∨
          (router_decide q hd).use_web = true) ∧
    (∀ (q : Str) (hd : Option Bool), (router_decide q hd).reason ≠ []) := by
  refine ⟨by decide, by decide, by decide, router_decide_web_or_docs, ?_⟩
  intro q hd
  simp only [router_decide]
  split
  · simp
  · split
    · simp
    · split
      · simp
      · split
        · simp
        · simp

/-- Witness for C6: the universally quantified parts applied at a
concrete query and context. -/
theorem c6_router_outcomes_witness :
    ((router_decide [] none).use_documents = true ∨
      (router_decide [] none).use_web = true) ∧
    (router_decide [] none).reason ≠ [] :=
  ⟨c6_router_outcomes.2.2.2.1 [] none, c6_router_outcomes.2.2.2.2 [] none⟩

/-! ## Answer-synthesizer claim -/

theorem intercalate_space_ne_nil :
    ∀ l : List Str, (∃ w ∈ l, w ≠ []) → List.intercalate [' '] l ≠ [] := by
  intro l
  rcases l with _ | ⟨a, t⟩
  · rintro ⟨w, hw, _⟩
    simp at hw
  · rcases t with _ | ⟨b, t2⟩
    · rintro ⟨w, hw, hne⟩
      simp only [List.mem_singleton] at hw
      subst hw
      simpa [List.intercalate] using hne
    · intro _
      simp only [List.intercalate, List.intersperse, List.flatten]
      simp [List.append_eq_nil]

/-- C4 counterexample: with no evidence at all the fallback answer is the
empty string, so the claimed "non-empty answer" fails on the empty
fused-evidence input. -/
theorem c4_counterexample :
    (generate_answer (fun _ => .error ()) ⟨[], []⟩ "q".toList).answer = [] := rfl

/-- C4 amended: if the chat collaborator fails, `generate_answer` still
returns (modelled by totality): the answer is the space-joined claims of
the first ≤ 3 citations (non-empty whenever any of those claims is
non-empty — but empty when the evidence list is empty), the citations
are passed through unchanged, and the sources text has one line
`[index] source (sourceType)` per citation. -/
theorem c4_generate_answer_fallback (chat : ChatFun) (fused : FusedEvidence)
    (user_query : Str) (e : Unit)
    (h : chat (answerMessages (answerPrompt fused.evidence user_query)) = .error e) :
    (generate_answer chat fused user_query).answer
        = List.intercalate [' '] ((fused.evidence.take 3).map fun c => c.claim) ∧
    (generate_answer chat fused user_query).citations = fused.evidence ∧
    (generate_answer chat fused user_query).sources_text =
      List.intercalate ['\n'] (fused.evidence.enum.map fun ic =>
        "[".toList ++ natStr (ic.1 + 1) ++ "] ".toList ++
          citationDisplaySource ic.2 ++ " (".toList ++ ic.2.source_type ++
          ")".toList) ∧
    ((∃ c ∈ fused.evidence.take 3, c.claim ≠ []) →
      (generate_answer chat fused user_query).answer ≠ []) := by
  have hge : generate_answer chat fused user_query =
      { answer := List.intercalate [' ']
          ((fused.evidence.take 3).map fun c => c.claim)
        citations := fused.evidence
        sources_text := format_citations fused.evidence } := by
    simp only [generate_answer, h]
  refine ⟨by rw [hge], by rw [hge], by rw [hge]; rfl, ?_⟩
  · rintro ⟨c, hc, hne⟩
    rw [hge]
    refine intercalate_space_ne_nil _ ⟨c.claim, ?_, hne⟩
    exact List.mem_map_of_mem _ hc

/-- Witness for C4: a single citation with claim `"hi"` and an
always-failing collaborator. -/
theorem c4_generate_answer_fallback_witness :
    (generate_answer (fun _ => .error ())
        ⟨[make_citation "hi".toList "document".toList none none 1], []⟩
        "q".toList).answer
      = List.intercalate [' ']
          ((([make_citation "hi".toList "document".toList none none 1].take 3)).map
            fun c => c.claim) ∧
    (generate_answer (fun _ => .error ())
        ⟨[make_citation "hi".toList "document".toList none none 1], []⟩
        "q".toList).answer ≠ [] := by
  obtain ⟨h1, _, _, h4⟩ := c4_generate_answer_fallback (fun _ => .error ())
    ⟨[make_citation "hi".toList "document".toList none none 1], []⟩
    "q".toList () rfl
  exact ⟨h1, h4 ⟨make_citation "hi".toList "document".toList none none 1,
    by simp, by simp [make_citation]⟩⟩

/-- Witness for C3 at the spec's example shape (one document hit and one
web hit with distinct snippets): the retained web citation's key differs
from the document candidate's key. -/
theorem c3_fuse_dedup_first_seen_witness :
    citKey (mkWebCitation { snippet := some "beta".toList }) ≠
      citKey (mkDocCitation
        { content := some "alpha".toList, score := some (1/2) }) := by
  have hm : mkWebCitation { snippet := some "beta".toList } ∈
      (fuse [{ content := some "alpha".toList, score := some (1/2) }]
            [{ snippet := some "beta".toList }]).evidence := by
    simp only [fuse, List.map_cons, List.map_nil]
    rw [(sortByConfDesc_perm _).mem_iff, List.mem_append]
    right
    have h1 : (dedupCitations
          [mkDocCitation { content := some "alpha".toList, score := some (1/2) }]
          []).1
        = [citKey (mkDocCitation
            { content := some "alpha".toList, score := some (1/2) })] := by
      simp [dedupCitations]
    rw [h1]
    have h2 : (dedupCitations [mkWebCitation { snippet := some "beta".toList }]
          [citKey (mkDocCitation
            { content := some "alpha".toList, score := some (1/2) })]).2
        = [mkWebCitation { snippet := some "beta".toList }] := by
      simp only [dedupCitations]
      rw [if_neg (by decide)]
    rw [h2]
    simp
  exact (c3_fuse_dedup_first_seen _ _).2.2 _ hm rfl _ (List.mem_singleton.mpr rfl)

/-- Witness for C5 with one non-negative document score. -/
theorem c5_confidence_bounds_witness :
    0 ≤ (mkDocCitation { score := some (1/2) }).confidence ∧
    (mkDocCitation { score := some (1/2) }).confidence ≤ 1 := by
  refine (c5_confidence_bounds [{ score := some (1/2) }] []).2 ?_ ?_ _ ?_
  · rintro d hd q hq
    simp only [List.mem_singleton] at hd
    subst hd
    have := Option.some.inj hq
    rw [← this]
    norm_num
  · rintro w hw q hq
    simp at hw
  · simp only [fuse, List.map_cons, List.map_nil]
    rw [(sortByConfDesc_perm _).mem_iff, List.mem_append]
    left
    simp [dedupCitations]

/-- Witness for C8: each confidence formula instantiated at a concrete
hit. -/
theorem c8_confidence_formula_witness :
    (mkDocCitation { score := some (1/2) }).confidence
        = min 1 ((1/2) * source_priority_document) ∧
    (mkDocCitation { score := some 0 }).confidence
        = min 1 ((6/10) * source_priority_document) ∧
    (mkWebCitation { confidence := some (1/4) }).confidence
        = min 1 ((1/4) * source_priority_internet) ∧
    (mkWebCitation {}).confidence = min 1 ((5/10) * source_priority_internet) :=
  ⟨c8_confidence_formula.1 _ _ rfl (by norm_num),
   c8_confidence_formula.2.1 _ (Or.inr rfl),
   c8_confidence_formula.2.2.1 _ _ rfl,
   c8_confidence_formula.2.2.2.1 _ rfl⟩

/-- Witness for C9: a fused document citation carries the
`"document"` source type. -/
theorem c9_source_type_witness :
    ((mkDocCitation { score := some (1/4) }).source_type = "document".toList ∧
      ∃ d ∈ [({ score := some (1/4) } : DocHit)],
        mkDocCitation { score := some (1/4) } = mkDocCitation d) ∨
    ((mkDocCitation { score := some (1/4) }).source_type = "internet".toList ∧
      ∃ w ∈ ([] : List WebHit),
        mkDocCitation { score := some (1/4) } = mkWebCitation w) := by
  refine c9_source_type [{ score := some (1/4) }] [] _ ?_
  simp only [fuse, List.map_cons, List.map_nil]
  rw [(sortByConfDesc_perm _).mem_iff, List.mem_append]
  left
  simp [dedupCitations]

/-! Concrete evaluations checking the embedding against the source's behavior. -/
example :
    chunk_text 3 "ab".toList 1 0 [] [] =
      .ok (some [
        { content := ['a']
          metadata := { document_id := [], source := [], chunk_index := 0,
                        start_position := some 0, end_position := some 1 }
          chunk_id := "_chunk_0".toList, source := [] },
        { content := ['b']
          metadata := { document_id := [], source := [], chunk_index := 1,
                        start_position := some 1, end_position := some 2 }
          chunk_id := "_chunk_1".toList, source := [] }]) := by decide

example :
    (chunk_by_sections "a\n\n\n\nb".toList [] []).map (fun c => c.metadata.chunk_index)
      = [0, 2] := by decide

example :
    (chunk_by_tokens "one two three four five".toList 3 [] []).map
      (fun c => (c.content, c.metadata.chunk_index)) =
    [("one two three".toList, 0), ("four five".toList, 1)] := by decide
